import Mathlib

/-!
# Shallow embedding of the `shango_poly` rust-engine core

This file embeds the three cache engines of `src/rust-engine/src/` —
`deduplicator.rs` (`Deduplicator`), `turbo_aggregator.rs` (`TurboAggregator`)
and `turbo_scanner.rs` (`TurboScanner`) — together with the record types from
`lib.rs`, and proves properties of the embedded operations.

Modelling conventions:
* The process-wide lightweight-mode flag (`lib.rs`, `is_lightweight_mode`) is
  passed explicitly as a `Bool` argument at each point where the Rust code
  reads it (constructors and the per-call reads inside `check_and_add`,
  `aggregate_prices` and `filter_opportunities`).
* Rust `AHashSet<String>` is modelled as a `List String` used as a set
  (membership is checked before every insertion); `AHashMap<String, _>` is an
  association list with unique keys maintained by `alistInsert`.  The Rust
  set's arbitrary iteration order (`seen.iter().take(keep_size)`) is modelled
  by `List.take` on the underlying list.
* `i64` / `i32` values are modelled as `Int` (the claims under study exercise
  no overflow behaviour), `u64`/`usize` counters as `Nat`.
* `str::parse::<f64>` is modelled by `parsePrice : String → Option DecVal`,
  an exact-decimal reading of optionally signed decimal literals; parse
  success/failure and value ordering for such literals agree with the Rust
  parse on the inputs the claims are about.
-/

namespace ShangoPoly

/-- `PriceData` record from `lib.rs`. -/
structure PriceData where
  token_a : String
  token_b : String
  price : String
  source : String
  timestamp : Int
deriving DecidableEq, Repr

/-- `Opportunity` record from `lib.rs`. -/
structure Opportunity where
  path : List String
  dexes : List String
  input_amount : String
  output_amount : String
  profit : String
  profit_bps : Int
  timestamp : Int
deriving DecidableEq, Repr

/-! ## Deduplicator (`deduplicator.rs`) -/

/-- `DedupStats` from `deduplicator.rs`. -/
structure DedupStats where
  total_checked : Nat
  duplicates_found : Nat
  cache_clears : Nat
deriving DecidableEq, Repr

/-- `Deduplicator` state: the `seen_items` set (as a duplicate-free list),
the construction-time `max_size`, and the counters. -/
structure Deduplicator where
  seen_items : List String
  max_size : Nat
  stats : DedupStats
deriving DecidableEq, Repr

namespace Deduplicator

/-- `Deduplicator::new`: `max_size` is 5000 when lightweight mode is active at
construction, 20000 otherwise. -/
def new (lightweight : Bool) : Deduplicator :=
  { seen_items := []
    max_size := if lightweight then 5000 else 20000
    stats := ⟨0, 0, 0⟩ }

/-- `Deduplicator::check_and_add`.  `lightweight` is the value of the global
mode flag at the time of the call (read inside the eviction branch).  Returns
the boolean result and the updated state. -/
def check_and_add (d : Deduplicator) (lightweight : Bool) (key : String) :
    Bool × Deduplicator :=
  let stats1 : DedupStats := { d.stats with total_checked := d.stats.total_checked + 1 }
  if key ∈ d.seen_items then
    (true, { d with stats := { stats1 with duplicates_found := stats1.duplicates_found + 1 } })
  else if d.seen_items.length ≥ d.max_size then
    let keep_size := if lightweight then d.max_size / 4 else d.max_size / 2
    (false,
      { d with
          seen_items := key :: d.seen_items.take keep_size
          stats := { stats1 with cache_clears := stats1.cache_clears + 1 } })
  else
    (false, { d with seen_items := key :: d.seen_items, stats := stats1 })

/-- `Deduplicator::check_batch`: per-key seen/insert check in input order,
with no eviction. -/
def check_batch : Deduplicator → List String → List Bool × Deduplicator
  | d, [] => ([], d)
  | d, key :: rest =>
    let stats1 : DedupStats := { d.stats with total_checked := d.stats.total_checked + 1 }
    if key ∈ d.seen_items then
      let r := check_batch
        { d with stats := { stats1 with duplicates_found := stats1.duplicates_found + 1 } } rest
      (true :: r.1, r.2)
    else
      let r := check_batch { d with seen_items := key :: d.seen_items, stats := stats1 } rest
      (false :: r.1, r.2)

/-- `Deduplicator::get_cache_size`. -/
def get_cache_size (d : Deduplicator) : Nat := d.seen_items.length

/-- `Deduplicator::clear`: resets the set and all counters. -/
def clear (d : Deduplicator) : Deduplicator :=
  { d with seen_items := [], stats := ⟨0, 0, 0⟩ }

/-- `Deduplicator::get_stats` (the `DedupResult` it returns, with the
counters kept as naturals). -/
def get_stats (d : Deduplicator) : Bool × Nat × Nat :=
  (d.stats.duplicates_found > 0, d.stats.total_checked, d.stats.duplicates_found)

end Deduplicator

/-! ## Price parsing (model of `str::parse::<f64>`) -/

/-- Numeric value of a digit character. -/
def charToDigit (c : Char) : Nat := c.toNat - '0'.toNat

/-- Value of a digit string, most significant digit first. -/
def digitsVal (cs : List Char) : Nat :=
  cs.foldl (fun a c => a * 10 + charToDigit c) 0

/-- Split at the first `'.'`: the part before it, and (when a dot is present)
the part after it. -/
def breakDot (cs : List Char) : List Char × Option (List Char) :=
  match cs.span (fun c => c ≠ '.') with
  | (pre, []) => (pre, none)
  | (pre, _ :: post) => (pre, some post)

/-- An exact decimal value `mant / 10 ^ scale`, the result of parsing a
decimal literal.  Kept in integer form so that comparisons are computable by
integer arithmetic. -/
structure DecVal where
  mant : Int
  scale : Nat
deriving DecidableEq, Repr

/-- The rational value denoted by a `DecVal`. -/
def DecVal.toRat (a : DecVal) : ℚ := (a.mant : ℚ) / (10 : ℚ) ^ a.scale

/-- Decidable order on parsed decimal values, by cross-multiplication. -/
def DecVal.le (a b : DecVal) : Bool :=
  a.mant * 10 ^ b.scale ≤ b.mant * 10 ^ a.scale

/-- Model of Rust `str::parse::<f64>` on the price strings: an optionally
signed decimal literal `[+|-] digits [. digits]` (at least one digit overall)
read as an exact decimal value; anything else fails.  (The Rust parser rounds
to the nearest `f64` and also accepts exponent/`inf`/`nan` forms; the claims
under study depend only on parse success and value order of plain decimal
literals, where this model agrees.) -/
def parsePriceChars (cs : List Char) : Option DecVal :=
  let signBody : Int × List Char :=
    match cs with
    | '-' :: r => (-1, r)
    | '+' :: r => (1, r)
    | r => (1, r)
  let sign := signBody.1
  match breakDot signBody.2 with
  | (ip, none) =>
    if !ip.isEmpty && ip.all Char.isDigit then
      some ⟨sign * (digitsVal ip : Int), 0⟩
    else none
  | (ip, some fp) =>
    if (!ip.isEmpty || !fp.isEmpty) && ip.all Char.isDigit && fp.all Char.isDigit then
      some ⟨sign * (digitsVal (ip ++ fp) : Int), fp.length⟩
    else none

/-- `price.parse::<f64>()` on a `String`. -/
def parsePrice (s : String) : Option DecVal := parsePriceChars s.data

/-! ## TurboAggregator (`turbo_aggregator.rs`) -/

/-- `CachedPrice` from `turbo_aggregator.rs`. -/
structure CachedPrice where
  data : PriceData
  timestamp : Int
deriving DecidableEq, Repr

/-- Association-list lookup for the price cache. -/
def alistLookup (cache : List (String × CachedPrice)) (k : String) : Option CachedPrice :=
  (cache.find? (fun kv => kv.1 = k)).map Prod.snd

/-- Association-list insert-or-overwrite (`AHashMap::insert`). -/
def alistInsert (cache : List (String × CachedPrice)) (k : String) (v : CachedPrice) :
    List (String × CachedPrice) :=
  (k, v) :: cache.filter (fun kv => kv.1 ≠ k)

/-- `TurboAggregator` state.  `dedup_window_ms` is fixed to 5000 by the
constructor; `cache_timeout_ms` is halved under lightweight mode at
construction time. -/
structure TurboAggregator where
  price_cache : List (String × CachedPrice)
  cache_timeout_ms : Int
  dedup_window_ms : Int
deriving DecidableEq, Repr

namespace TurboAggregator

/-- `TurboAggregator::new` (with the construction-time mode flag explicit). -/
def new (lightweight : Bool) (cache_timeout_ms : Int) : TurboAggregator :=
  { price_cache := []
    cache_timeout_ms := if lightweight then cache_timeout_ms / 2 else cache_timeout_ms
    dedup_window_ms := 5000 }

/-- Composite cache key `format!("{}-{}-{}", token_a, token_b, source)`. -/
def priceKey (p : PriceData) : String :=
  p.token_a ++ "-" ++ p.token_b ++ "-" ++ p.source

/-- `evict_old_entries`: drop every entry whose age is `≥ cache_timeout_ms`. -/
def evict_old_entries (timeout : Int) (cache : List (String × CachedPrice))
    (now : Int) : List (String × CachedPrice) :=
  cache.filter (fun kv => now - kv.2.timestamp < timeout)

/-- The loop body of `aggregate_prices`, acting on the pair
(emitted so far, current cache). -/
def processPrice (timeout dedup now : Int)
    (acc : List PriceData × List (String × CachedPrice)) (p : PriceData) :
    List PriceData × List (String × CachedPrice) :=
  let key := priceKey p
  match alistLookup acc.2 key with
  | some cached =>
    let age := now - cached.timestamp
    if age < dedup then
      acc
    else if age < timeout then
      (acc.1 ++ [cached.data], acc.2)
    else
      (acc.1 ++ [p], alistInsert acc.2 key ⟨p, now⟩)
  | none =>
    (acc.1 ++ [p], alistInsert acc.2 key ⟨p, now⟩)

/-- `aggregate_prices`, with the per-call global mode flag explicit.  Under
lightweight mode the eviction sweep runs first; then each observation is
processed in order. -/
def aggregate_prices (s : TurboAggregator) (lightweight : Bool)
    (prices : List PriceData) (now : Int) : List PriceData × TurboAggregator :=
  let cache0 := if lightweight
    then evict_old_entries s.cache_timeout_ms s.price_cache now
    else s.price_cache
  let r := prices.foldl (processPrice s.cache_timeout_ms s.dedup_window_ms now) ([], cache0)
  (r.1, { s with price_cache := r.2 })

/-- The comparison `a.0.partial_cmp(&b.0) ≤ Equal` used by the `sort_by` call
in `calculate_median_price` (parsed values are exact decimals, so the
comparator is total). -/
def priceLe (a b : DecVal × PriceData) : Prop := a.1.le b.1 = true

instance : DecidableRel priceLe := fun a b => inferInstanceAs (Decidable (a.1.le b.1 = true))

/-- The `filter_map` of `calculate_median_price`: each observation paired
with its parsed price value, parse failures dropped. -/
def parsedPairs (prices : List PriceData) : List (DecVal × PriceData) :=
  prices.filterMap (fun p => (parsePrice p.price).map (fun v => (v, p)))

/-- The `sort_by` of `calculate_median_price`: a stable sort ascending by
parsed value (Rust `Vec::sort_by` is a stable sort). -/
def sortPairs (l : List (DecVal × PriceData)) : List (DecVal × PriceData) :=
  List.insertionSort priceLe l

/-- `calculate_median_price`: early returns on sizes 0 and 1, then the
parse-filter, then the sort and the `len / 2` selection. -/
def calculate_median_price (prices : List PriceData) : Option PriceData :=
  if prices.length = 0 then none
  else if prices.length = 1 then prices.head?
  else
    let price_values := parsedPairs prices
    if price_values.length = 0 then none
    else
      let sorted := sortPairs price_values
      (sorted.get? (sorted.length / 2)).map Prod.snd

/-- `get_cache_size`. -/
def get_cache_size (s : TurboAggregator) : Nat := s.price_cache.length

/-- `clear_cache`. -/
def clear_cache (s : TurboAggregator) : TurboAggregator :=
  { s with price_cache := [] }

end TurboAggregator

/-! ## TurboScanner (`turbo_scanner.rs`) -/

/-- `TurboScanner` state. -/
structure TurboScanner where
  seen_opportunities : List String
  min_profit_bps : Int
  scan_count : Nat
deriving DecidableEq, Repr

namespace TurboScanner

/-- `TurboScanner::new`. -/
def new (min_profit_bps : Int) : TurboScanner :=
  { seen_opportunities := [], min_profit_bps := min_profit_bps, scan_count := 0 }

/-- `generate_opportunity_key`: path segments joined with `"-"`, then `'|'`,
then dex segments joined with `"-"`. -/
def generate_opportunity_key (opp : Opportunity) : String :=
  String.intercalate "-" opp.path ++ "|" ++ String.intercalate "-" opp.dexes

/-- The loop body of `filter_opportunities`, acting on the pair
(emitted so far, current seen-set). -/
def filterStep (lightweight : Bool) (minp : Int)
    (acc : List Opportunity × List String) (opp : Opportunity) :
    List Opportunity × List String :=
  if opp.profit_bps < minp then acc
  else
    let key := generate_opportunity_key opp
    if key ∈ acc.2 then acc
    else
      let seen1 := if lightweight && acc.2.length > 1000 then [] else acc.2
      (acc.1 ++ [opp], key :: seen1)

/-- `filter_opportunities`, with the per-call global mode flag explicit. -/
def filter_opportunities (s : TurboScanner) (lightweight : Bool)
    (opps : List Opportunity) : List Opportunity × TurboScanner :=
  let r := opps.foldl (filterStep lightweight s.min_profit_bps) ([], s.seen_opportunities)
  (r.1, { s with seen_opportunities := r.2, scan_count := s.scan_count + 1 })

/-- `reset`. -/
def reset (s : TurboScanner) : TurboScanner :=
  { s with seen_opportunities := [], scan_count := 0 }

/-- `get_cache_size`. -/
def get_cache_size (s : TurboScanner) : Nat := s.seen_opportunities.length

end TurboScanner

/-! ## Auxiliary definitions used by the statements below -/

namespace Deduplicator

/-- Sequential single-item `check_and_add` calls, collecting the results in
order (used to compare `check_batch` against the single-item operation). -/
def seqCheck (lw : Bool) : Deduplicator → List String → List Bool × Deduplicator
  | d, [] => ([], d)
  | d, key :: rest =>
    let r1 := d.check_and_add lw key
    let r2 := seqCheck lw r1.2 rest
    (r1.1 :: r2.1, r2.2)

/-- Run a sequence of single-item `check_and_add` calls; each element of
`ops` carries the global mode flag observed by that call and the key. -/
def applyOps (d : Deduplicator) (ops : List (Bool × String)) : Deduplicator :=
  ops.foldl (fun d op => (d.check_and_add op.1 op.2).2) d

end Deduplicator

/-- The `n`-th member of an infinite family of pairwise-distinct keys. -/
def natKey (n : Nat) : String := String.mk (List.replicate n 'a')

/-- 5001 pairwise-distinct keys. -/
def bigKeys : List String := (List.range 5001).map natKey

/-- A price observation whose price string does not parse. -/
def pAbc : PriceData := ⟨"A", "B", "abc", "dex1", 0⟩

/-- A second observation whose price string does not parse. -/
def pXyz : PriceData := ⟨"A", "B", "xyz", "dex2", 0⟩

/-- Observation with price `"100"` (cf. `test_median_calculation`). -/
def pd100 : PriceData := ⟨"A", "B", "100", "dex1", 1000⟩

/-- Observation with price `"105"` (cf. `test_median_calculation`). -/
def pd105 : PriceData := ⟨"A", "B", "105", "dex2", 1000⟩

/-- Observation with price `"110"` (cf. `test_median_calculation`). -/
def pd110 : PriceData := ⟨"A", "B", "110", "dex3", 1000⟩

/-- Observation used for the duplicate-burst scenarios
(cf. `test_turbo_aggregator`). -/
def pC3 : PriceData := ⟨"A", "B", "100.5", "dex1", 0⟩

/-- A high-profit opportunity (cf. `test_turbo_scanner`). -/
def oppHigh : Opportunity := ⟨["A", "B"], ["dex1"], "1000", "1100", "100", 100, 0⟩

namespace Deduplicator

theorem check_and_add_of_mem (d : Deduplicator) (lw : Bool) (k : String)
    (h : k ∈ d.seen_items) :
    d.check_and_add lw k =
      (true, { d with stats := ⟨d.stats.total_checked + 1, d.stats.duplicates_found + 1,
                                d.stats.cache_clears⟩ }) := by
  simp [check_and_add, h]

theorem check_and_add_of_not_mem_lt (d : Deduplicator) (lw : Bool) (k : String)
    (h : k ∉ d.seen_items) (hlt : d.seen_items.length < d.max_size) :
    d.check_and_add lw k =
      (false,
        { d with
            seen_items := k :: d.seen_items
            stats := ⟨d.stats.total_checked + 1, d.stats.duplicates_found,
                      d.stats.cache_clears⟩ }) := by
  simp [check_and_add, h, Nat.not_le.mpr hlt]

theorem check_and_add_of_not_mem_ge (d : Deduplicator) (lw : Bool) (k : String)
    (h : k ∉ d.seen_items) (hge : d.seen_items.length ≥ d.max_size) :
    d.check_and_add lw k =
      (false,
        { d with
            seen_items :=
              k :: d.seen_items.take (if lw then d.max_size / 4 else d.max_size / 2)
            stats := ⟨d.stats.total_checked + 1, d.stats.duplicates_found,
                      d.stats.cache_clears + 1⟩ }) := by
  simp [check_and_add, h, hge]

theorem check_and_add_max (d : Deduplicator) (lw : Bool) (k : String) :
    (d.check_and_add lw k).2.max_size = d.max_size := by
  by_cases h : k ∈ d.seen_items
  · rw [check_and_add_of_mem d lw k h]
  · by_cases hge : d.seen_items.length ≥ d.max_size
    · rw [check_and_add_of_not_mem_ge d lw k h hge]
    · rw [check_and_add_of_not_mem_lt d lw k h (Nat.not_le.mp hge)]

theorem check_and_add_length_le (d : Deduplicator) (lw : Bool) (k : String)
    (h2 : 2 ≤ d.max_size) (hlen : d.seen_items.length ≤ d.max_size) :
    (d.check_and_add lw k).2.seen_items.length ≤ d.max_size := by
  by_cases h : k ∈ d.seen_items
  · rw [check_and_add_of_mem d lw k h]
    exact hlen
  · by_cases hge : d.seen_items.length ≥ d.max_size
    · rw [check_and_add_of_not_mem_ge d lw k h hge]
      simp only [List.length_cons, List.length_take]
      have hkeep : (if lw then d.max_size / 4 else d.max_size / 2) ≤ d.max_size / 2 := by
        split <;> omega
      omega
    · rw [check_and_add_of_not_mem_lt d lw k h (Nat.not_le.mp hge)]
      simp only [List.length_cons]
      omega

theorem applyOps_cons (d : Deduplicator) (op : Bool × String) (ops : List (Bool × String)) :
    applyOps d (op :: ops) = applyOps (d.check_and_add op.1 op.2).2 ops := rfl

theorem applyOps_length_le (ops : List (Bool × String)) :
    ∀ d : Deduplicator, 2 ≤ d.max_size → d.seen_items.length ≤ d.max_size →
      (applyOps d ops).seen_items.length ≤ d.max_size := by
  induction ops with
  | nil => intro d _ hlen; exact hlen
  | cons op rest ih =>
    intro d h2 hlen
    rw [applyOps_cons]
    have hmax := check_and_add_max d op.1 op.2
    have := ih (d.check_and_add op.1 op.2).2 (hmax ▸ h2)
      (hmax ▸ check_and_add_length_le d op.1 op.2 h2 hlen)
    rwa [hmax] at this

theorem check_batch_len_of_nodup (keys : List String) :
    ∀ d : Deduplicator, keys.Nodup → (∀ k ∈ keys, k ∉ d.seen_items) →
      (d.check_batch keys).2.seen_items.length = d.seen_items.length + keys.length := by
  induction keys with
  | nil => intro d _ _; rfl
  | cons key rest ih =>
    intro d hnd hfresh
    have hk : key ∉ d.seen_items := hfresh key (List.mem_cons_self _ _)
    have hnd' := List.nodup_cons.mp hnd
    have hrec := ih
      { d with
          seen_items := key :: d.seen_items
          stats := ⟨d.stats.total_checked + 1, d.stats.duplicates_found,
                    d.stats.cache_clears⟩ }
      hnd'.2
      (by
        intro x hx
        simp only [List.mem_cons]
        push_neg
        exact ⟨fun he => hnd'.1 (he ▸ hx), hfresh x (List.mem_cons_of_mem _ hx)⟩)
    simp only [check_batch, if_neg hk]
    rw [hrec]
    simp only [List.length_cons]
    omega

theorem check_batch_length (keys : List String) :
    ∀ d : Deduplicator, (d.check_batch keys).1.length = keys.length := by
  induction keys with
  | nil => intro d; rfl
  | cons key rest ih =>
    intro d
    by_cases hk : key ∈ d.seen_items <;> simp [check_batch, hk, ih]

theorem check_batch_seen_mono (keys : List String) :
    ∀ (d : Deduplicator) (x : String), x ∈ d.seen_items →
      x ∈ (d.check_batch keys).2.seen_items := by
  induction keys with
  | nil => intro d x hx; exact hx
  | cons key rest ih =>
    intro d x hx
    by_cases hk : key ∈ d.seen_items
    · simp only [check_batch, if_pos hk]
      exact ih _ x hx
    · simp only [check_batch, if_neg hk]
      exact ih _ x (List.mem_cons_of_mem _ hx)

theorem check_batch_clears (keys : List String) :
    ∀ d : Deduplicator, (d.check_batch keys).2.stats.cache_clears = d.stats.cache_clears := by
  induction keys with
  | nil => intro d; rfl
  | cons key rest ih =>
    intro d
    by_cases hk : key ∈ d.seen_items <;> simp [check_batch, hk, ih]

theorem check_batch_eq_seqCheck (keys : List String) :
    ∀ (d : Deduplicator) (lw : Bool), d.seen_items.length + keys.length ≤ d.max_size →
      d.check_batch keys = seqCheck lw d keys := by
  induction keys with
  | nil => intro d lw _; rfl
  | cons key rest ih =>
    intro d lw hle
    simp only [List.length_cons] at hle
    by_cases hk : key ∈ d.seen_items
    · simp only [check_batch, if_pos hk, seqCheck, check_and_add_of_mem d lw key hk]
      rw [ih _ lw (by show d.seen_items.length + rest.length ≤ d.max_size; omega)]
    · have hlt : d.seen_items.length < d.max_size := by omega
      simp only [check_batch, if_neg hk, seqCheck,
        check_and_add_of_not_mem_lt d lw key hk hlt]
      rw [ih _ lw (by
        show (key :: d.seen_items).length + rest.length ≤ d.max_size
        simp only [List.length_cons]
        omega)]

theorem natKey_injective : Function.Injective natKey := by
  intro m n h
  have h2 : List.replicate m 'a' = List.replicate n 'a' := congrArg String.data h
  have h3 := congrArg List.length h2
  simpa using h3

theorem bigKeys_nodup : bigKeys.Nodup :=
  (List.nodup_range 5001).map natKey_injective

theorem bigKeys_length : bigKeys.length = 5001 := by
  simp [bigKeys]

end Deduplicator

/-! ## Claims about the Deduplicator -/

/-- Claim C2, counterexample: a single `check_batch` call on a freshly
constructed lightweight-mode deduplicator (`max_size = 5000`) with 5001
pairwise-distinct keys leaves the seen set at size 5001, so the size of the
seen set is *not* at most `max_size` after every operation. -/
theorem C2_counterexample :
    ¬ (((Deduplicator.new true).check_batch bigKeys).2.seen_items.length ≤
        (Deduplicator.new true).max_size) := by
  have h := Deduplicator.check_batch_len_of_nodup bigKeys (Deduplicator.new true)
    Deduplicator.bigKeys_nodup
    (by intro k _; simp [Deduplicator.new])
  rw [h, Deduplicator.bigKeys_length]
  simp [Deduplicator.new]

/-- Claim C2 (amended): after every `check_and_add` and every `clear` the
size of the seen set is at most `max_size`, provided it was at most
`max_size` before the call and `max_size ≥ 2` (true of both constructible
capacities); read-only queries do not touch the set (`get_cache_size` merely
reads its length).  `check_batch`, by contrast, can push the set above
`max_size`. -/
theorem C2_size_invariant_single_ops (d : Deduplicator) (lw : Bool) (k : String)
    (h2 : 2 ≤ d.max_size) (hlen : d.seen_items.length ≤ d.max_size) :
    (d.check_and_add lw k).2.seen_items.length ≤ d.max_size ∧
    d.clear.seen_items.length ≤ d.max_size ∧
    d.get_cache_size = d.seen_items.length :=
  ⟨Deduplicator.check_and_add_length_le d lw k h2 hlen,
   by simp [Deduplicator.clear],
   rfl⟩

/-- Witness for `C2_size_invariant_single_ops` at a freshly constructed
normal-mode deduplicator. -/
theorem C2_size_invariant_single_ops_witness :
    ((Deduplicator.new false).check_and_add false "k1").2.seen_items.length ≤
      (Deduplicator.new false).max_size ∧
    (Deduplicator.new false).clear.seen_items.length ≤
      (Deduplicator.new false).max_size ∧
    (Deduplicator.new false).get_cache_size =
      (Deduplicator.new false).seen_items.length :=
  C2_size_invariant_single_ops (Deduplicator.new false) false "k1"
    (by decide) (by decide)

/-- Claim C5: after any sequence of single-item `check_and_add` calls (each
observing an arbitrary momentary mode flag), the seen set of a freshly
constructed deduplicator never exceeds `max_size`; and `max_size` is 5000
when lightweight mode was active at construction, 20000 otherwise. -/
theorem C5_eviction_bound (lw0 : Bool) (ops : List (Bool × String)) :
    (Deduplicator.applyOps (Deduplicator.new lw0) ops).seen_items.length ≤
      (Deduplicator.new lw0).max_size ∧
    (Deduplicator.new true).max_size = 5000 ∧
    (Deduplicator.new false).max_size = 20000 := by
  refine ⟨?_, rfl, rfl⟩
  apply Deduplicator.applyOps_length_le
  · cases lw0 <;> simp [Deduplicator.new]
  · simp [Deduplicator.new]

/-- Claim C6: `check_and_add` returns `true` iff the key is already seen;
on `true` only the `total_checked`/`duplicates_found` counters change (the
seen set and `cache_clears` are untouched); on `false` the key is inserted;
and on a key not yet seen a first call returns `false` and an immediately
following call with the same key returns `true`. -/
theorem C6_check_and_add_semantics (d : Deduplicator) (lw lw' : Bool) (k : String) :
    ((d.check_and_add lw k).1 = true ↔ k ∈ d.seen_items) ∧
    ((d.check_and_add lw k).1 = true →
      (d.check_and_add lw k).2.seen_items = d.seen_items ∧
      (d.check_and_add lw k).2.stats.cache_clears = d.stats.cache_clears ∧
      (d.check_and_add lw k).2.stats.total_checked = d.stats.total_checked + 1 ∧
      (d.check_and_add lw k).2.stats.duplicates_found = d.stats.duplicates_found + 1) ∧
    ((d.check_and_add lw k).1 = false → k ∈ (d.check_and_add lw k).2.seen_items) ∧
    (k ∉ d.seen_items →
      (d.check_and_add lw k).1 = false ∧
      ((d.check_and_add lw k).2.check_and_add lw' k).1 = true) := by
  by_cases h : k ∈ d.seen_items
  · rw [Deduplicator.check_and_add_of_mem d lw k h]
    exact ⟨by simpa using h, fun _ => ⟨rfl, rfl, rfl, rfl⟩, by simp, fun hk => absurd h hk⟩
  · have hsecond : ∀ d2 : Deduplicator, k ∈ d2.seen_items →
        (d2.check_and_add lw' k).1 = true := by
      intro d2 h2
      rw [Deduplicator.check_and_add_of_mem d2 lw' k h2]
    by_cases hge : d.seen_items.length ≥ d.max_size
    · rw [Deduplicator.check_and_add_of_not_mem_ge d lw k h hge]
      refine ⟨by simpa using h, by simp, by simp, fun _ => ⟨rfl, ?_⟩⟩
      exact hsecond _ (List.mem_cons_self _ _)
    · rw [Deduplicator.check_and_add_of_not_mem_lt d lw k h (Nat.not_le.mp hge)]
      refine ⟨by simpa using h, by simp, by simp, fun _ => ⟨rfl, ?_⟩⟩
      exact hsecond _ (List.mem_cons_self _ _)

/-- Witness for `C6_check_and_add_semantics`: on a fresh deduplicator the
first call with `"k1"` returns `false` and the immediate second call returns
`true`. -/
theorem C6_check_and_add_semantics_witness :
    ((Deduplicator.new false).check_and_add false "k1").1 = false ∧
    (((Deduplicator.new false).check_and_add false "k1").2.check_and_add false "k1").1 = true :=
  (C6_check_and_add_semantics (Deduplicator.new false) false false "k1").2.2.2
    (by decide)

/-- Claim C8: `check_batch` returns one boolean per key in input order; it
never removes seen keys and never records a cache clear (no bulk eviction);
whenever no eviction could trigger it agrees exactly with sequential
single-item `check_and_add` calls; and on a fresh deduplicator
`check_batch [k1, k2, k1]` returns `[false, false, true]`. -/
theorem C8_check_batch_semantics (d : Deduplicator) (keys : List String) (lw : Bool) :
    (d.check_batch keys).1.length = keys.length ∧
    (∀ x ∈ d.seen_items, x ∈ (d.check_batch keys).2.seen_items) ∧
    (d.check_batch keys).2.stats.cache_clears = d.stats.cache_clears ∧
    (d.seen_items.length + keys.length ≤ d.max_size →
      d.check_batch keys = Deduplicator.seqCheck lw d keys) ∧
    ((Deduplicator.new false).check_batch ["k1", "k2", "k1"]).1 = [false, false, true] :=
  ⟨Deduplicator.check_batch_length keys d,
   fun x hx => Deduplicator.check_batch_seen_mono keys d x hx,
   Deduplicator.check_batch_clears keys d,
   Deduplicator.check_batch_eq_seqCheck keys d lw,
   by decide⟩

/-- Witness for `C8_check_batch_semantics`: the no-eviction agreement with
sequential `check_and_add` at a fresh deduplicator and three keys. -/
theorem C8_check_batch_semantics_witness :
    (Deduplicator.new false).check_batch ["k1", "k2", "k1"] =
      Deduplicator.seqCheck false (Deduplicator.new false) ["k1", "k2", "k1"] :=
  (C8_check_batch_semantics (Deduplicator.new false) ["k1", "k2", "k1"] false).2.2.2.1
    (by decide)

/-! ## TurboScanner: fold invariants -/

namespace TurboScanner

theorem filter_foldl_false_inv (minp : Int) (opps : List Opportunity) :
    ∀ (seen0 : List String) (acc : List Opportunity × List String),
      (∀ x ∈ seen0, x ∈ acc.2) →
      (∀ o ∈ acc.1, generate_opportunity_key o ∈ acc.2) →
      (acc.1.map generate_opportunity_key).Nodup →
      (∀ o ∈ acc.1, generate_opportunity_key o ∉ seen0) →
      (∀ x ∈ seen0, x ∈ (opps.foldl (filterStep false minp) acc).2) ∧
      (∀ o ∈ (opps.foldl (filterStep false minp) acc).1,
        generate_opportunity_key o ∈ (opps.foldl (filterStep false minp) acc).2) ∧
      ((opps.foldl (filterStep false minp) acc).1.map generate_opportunity_key).Nodup ∧
      (∀ o ∈ (opps.foldl (filterStep false minp) acc).1,
        generate_opportunity_key o ∉ seen0) := by
  induction opps with
  | nil => intro seen0 acc h1 h2 h3 h4; exact ⟨h1, h2, h3, h4⟩
  | cons opp rest ih =>
    intro seen0 acc h1 h2 h3 h4
    rw [List.foldl_cons]
    by_cases hp : opp.profit_bps < minp
    · rw [show filterStep false minp acc opp = acc by simp [filterStep, hp]]
      exact ih seen0 acc h1 h2 h3 h4
    · by_cases hk : generate_opportunity_key opp ∈ acc.2
      · rw [show filterStep false minp acc opp = acc by simp [filterStep, hp, hk]]
        exact ih seen0 acc h1 h2 h3 h4
      · rw [show filterStep false minp acc opp =
            (acc.1 ++ [opp], generate_opportunity_key opp :: acc.2) by
          simp [filterStep, hp, hk]]
        refine ih seen0 _ ?_ ?_ ?_ ?_
        · intro x hx
          exact List.mem_cons_of_mem _ (h1 x hx)
        · intro o ho
          rcases List.mem_append.mp ho with h | h
          · exact List.mem_cons_of_mem _ (h2 o h)
          · rw [List.mem_singleton.mp h]
            exact List.mem_cons_self _ _
        · rw [List.map_append]
          refine List.Nodup.append h3 (by simp) ?_
          intro x hx hx'
          rcases List.mem_map.mp hx with ⟨o, ho, rfl⟩
          simp only [List.map_cons, List.map_nil, List.mem_singleton] at hx'
          exact hk (hx' ▸ h2 o ho)
        · intro o ho
          rcases List.mem_append.mp ho with h | h
          · exact h4 o h
          · rw [List.mem_singleton.mp h]
            intro hs
            exact hk (h1 _ hs)

end TurboScanner

/-! ## Claims about the TurboScanner -/

/-- Claim C9: when a candidate passes the profit threshold with an unseen
fingerprint while lightweight mode is active and the seen set holds more
than 1000 entries, the whole seen set is discarded before the new
fingerprint is recorded and the candidate emitted (the post-state seen set
is exactly the new fingerprint); with lightweight mode inactive,
`filter_opportunities` never clears the seen set (every pre-call entry
survives). -/
theorem C9_lightweight_overflow_clear (minp : Int) (out : List Opportunity)
    (seen : List String) (opp : Opportunity) (s : TurboScanner)
    (opps : List Opportunity) :
    (minp ≤ opp.profit_bps →
      TurboScanner.generate_opportunity_key opp ∉ seen →
      1000 < seen.length →
      TurboScanner.filterStep true minp (out, seen) opp =
        (out ++ [opp], [TurboScanner.generate_opportunity_key opp])) ∧
    (∀ x ∈ s.seen_opportunities,
      x ∈ (s.filter_opportunities false opps).2.seen_opportunities) := by
  constructor
  · intro h1 h2 h3
    simp [TurboScanner.filterStep, Int.not_lt.mpr h1, h2, h3]
  · intro x hx
    exact (TurboScanner.filter_foldl_false_inv s.min_profit_bps opps
      s.seen_opportunities ([], s.seen_opportunities)
      (fun y hy => hy) (by intro o h; cases h) (by simp)
      (by intro o h; cases h)).1 x hx

/-- Witness for `C9_lightweight_overflow_clear`: a concrete overflow clear
(seen set of 1001 entries collapses to the single new fingerprint), and a
concrete pre-call entry surviving a normal-mode call. -/
theorem C9_lightweight_overflow_clear_witness :
    TurboScanner.filterStep true 50 ([], List.replicate 1001 "x") oppHigh =
      ([oppHigh], [TurboScanner.generate_opportunity_key oppHigh]) ∧
    "f1" ∈ ((⟨["f1"], 50, 0⟩ : TurboScanner).filter_opportunities false
      [oppHigh]).2.seen_opportunities :=
  ⟨(C9_lightweight_overflow_clear 50 [] (List.replicate 1001 "x") oppHigh
      (TurboScanner.new 50) []).1
      (by decide)
      (by
        simp only [List.mem_replicate, not_and]
        intro _
        decide)
      (by rw [List.length_replicate]; omega),
   (C9_lightweight_overflow_clear 50 [] [] oppHigh (⟨["f1"], 50, 0⟩ : TurboScanner)
      [oppHigh]).2 "f1" (List.mem_cons_self _ _)⟩

/-! ## TurboAggregator: cache lemmas -/

namespace TurboAggregator

theorem alistInsert_mem_fst (cache : List (String × CachedPrice)) (key : String)
    (v : CachedPrice) (k : String) (hk : k ∈ cache.map Prod.fst) :
    k ∈ (alistInsert cache key v).map Prod.fst := by
  by_cases he : k = key
  · subst he; simp [alistInsert]
  · rcases List.mem_map.mp hk with ⟨kv, hkv, rfl⟩
    refine List.mem_map.mpr ⟨kv, ?_, rfl⟩
    refine List.mem_cons_of_mem _ (List.mem_filter.mpr ⟨hkv, ?_⟩)
    simpa using he

theorem alistLookup_insert_self (cache : List (String × CachedPrice)) (key : String)
    (v : CachedPrice) : alistLookup (alistInsert cache key v) key = some v := by
  simp [alistLookup, alistInsert, List.find?]

theorem processPrice_drop (timeout dedup now : Int)
    (acc : List PriceData × List (String × CachedPrice)) (p : PriceData)
    (c : CachedPrice) (hl : alistLookup acc.2 (priceKey p) = some c)
    (hage : now - c.timestamp < dedup) :
    processPrice timeout dedup now acc p = acc := by
  simp [processPrice, hl, hage]

theorem processPrice_serve_cached (timeout dedup now : Int)
    (acc : List PriceData × List (String × CachedPrice)) (p : PriceData)
    (c : CachedPrice) (hl : alistLookup acc.2 (priceKey p) = some c)
    (h1 : ¬ now - c.timestamp < dedup) (h2 : now - c.timestamp < timeout) :
    processPrice timeout dedup now acc p = (acc.1 ++ [c.data], acc.2) := by
  simp [processPrice, hl, h1, h2]

theorem processPrice_insert_stale (timeout dedup now : Int)
    (acc : List PriceData × List (String × CachedPrice)) (p : PriceData)
    (c : CachedPrice) (hl : alistLookup acc.2 (priceKey p) = some c)
    (h1 : ¬ now - c.timestamp < dedup) (h2 : ¬ now - c.timestamp < timeout) :
    processPrice timeout dedup now acc p =
      (acc.1 ++ [p], alistInsert acc.2 (priceKey p) ⟨p, now⟩) := by
  simp [processPrice, hl, h1, h2]

theorem processPrice_insert_none (timeout dedup now : Int)
    (acc : List PriceData × List (String × CachedPrice)) (p : PriceData)
    (hl : alistLookup acc.2 (priceKey p) = none) :
    processPrice timeout dedup now acc p =
      (acc.1 ++ [p], alistInsert acc.2 (priceKey p) ⟨p, now⟩) := by
  simp [processPrice, hl]

theorem processPrice_cache_mono (timeout dedup now : Int)
    (acc : List PriceData × List (String × CachedPrice)) (p : PriceData)
    (k : String) (hk : k ∈ acc.2.map Prod.fst) :
    k ∈ (processPrice timeout dedup now acc p).2.map Prod.fst := by
  cases hl : alistLookup acc.2 (priceKey p) with
  | none =>
    rw [processPrice_insert_none timeout dedup now acc p hl]
    exact alistInsert_mem_fst acc.2 (priceKey p) ⟨p, now⟩ k hk
  | some c =>
    by_cases h1 : now - c.timestamp < dedup
    · rw [processPrice_drop timeout dedup now acc p c hl h1]
      exact hk
    · by_cases h2 : now - c.timestamp < timeout
      · rw [processPrice_serve_cached timeout dedup now acc p c hl h1 h2]
        exact hk
      · rw [processPrice_insert_stale timeout dedup now acc p c hl h1 h2]
        exact alistInsert_mem_fst acc.2 (priceKey p) ⟨p, now⟩ k hk

theorem foldl_processPrice_cache_mono (timeout dedup now : Int)
    (prices : List PriceData) :
    ∀ (acc : List PriceData × List (String × CachedPrice)) (k : String),
      k ∈ acc.2.map Prod.fst →
      k ∈ (prices.foldl (processPrice timeout dedup now) acc).2.map Prod.fst := by
  induction prices with
  | nil => intro acc k hk; exact hk
  | cons p rest ih =>
    intro acc k hk
    rw [List.foldl_cons]
    exact ih _ k (processPrice_cache_mono timeout dedup now acc p k hk)

theorem aggregate_pair_suppression (timeout dedup now : Int)
    (cache0 : List (String × CachedPrice)) (q : PriceData)
    (H : alistLookup cache0 (priceKey q) = none ∨
      ∃ c0, alistLookup cache0 (priceKey q) = some c0 ∧
        dedup ≤ now - c0.timestamp ∧ timeout ≤ now - c0.timestamp)
    (hd : 0 < dedup) :
    ([q, q].foldl (processPrice timeout dedup now) ([], cache0)).1 = [q] := by
  have hfold : [q, q].foldl (processPrice timeout dedup now) ([], cache0) =
      processPrice timeout dedup now
        (processPrice timeout dedup now ([], cache0) q) q := rfl
  have hstep1 : processPrice timeout dedup now ([], cache0) q =
      ([q], alistInsert cache0 (priceKey q) ⟨q, now⟩) := by
    rcases H with hnone | ⟨c0, hsome, h1, h2⟩
    · rw [processPrice_insert_none timeout dedup now ([], cache0) q hnone]
      exact rfl
    · rw [processPrice_insert_stale timeout dedup now ([], cache0) q c0 hsome
        (Int.not_lt.mpr h1) (Int.not_lt.mpr h2)]
      exact rfl
  rw [hfold, hstep1,
    processPrice_drop timeout dedup now ([q], alistInsert cache0 (priceKey q) ⟨q, now⟩)
      q ⟨q, now⟩ (alistLookup_insert_self cache0 (priceKey q) ⟨q, now⟩)
      (by simpa using hd)]

end TurboAggregator

/-! ## Claims about the TurboAggregator cache frame -/

/-- Claim C10: with lightweight mode off, `aggregate_prices` removes nothing
from the price cache — every key present before the call is present after it
(values may be overwritten in place); `clear_cache` is the operation that
empties the cache. -/
theorem C10_normal_mode_cache_frame (s : TurboAggregator) (prices : List PriceData)
    (now : Int) :
    (∀ k ∈ s.price_cache.map Prod.fst,
      k ∈ (s.aggregate_prices false prices now).2.price_cache.map Prod.fst) ∧
    s.clear_cache.price_cache = [] := by
  constructor
  · intro k hk
    exact TurboAggregator.foldl_processPrice_cache_mono s.cache_timeout_ms
      s.dedup_window_ms now prices ([], s.price_cache) k hk
  · rfl

/-- Witness for `C10_normal_mode_cache_frame`: the key cached by a first
call survives a later normal-mode call (here one that drops a duplicate
burst), and `clear_cache` empties that state. -/
theorem C10_normal_mode_cache_frame_witness :
    "A-B-dex1" ∈ ((((TurboAggregator.new false 10000).aggregate_prices false [pC3] 0).2).aggregate_prices
        false [pC3, pC3] 1000).2.price_cache.map Prod.fst ∧
    (((TurboAggregator.new false 10000).aggregate_prices false [pC3] 0).2).clear_cache.price_cache = [] :=
  ⟨(C10_normal_mode_cache_frame
      (((TurboAggregator.new false 10000).aggregate_prices false [pC3] 0).2)
      [pC3, pC3] 1000).1 "A-B-dex1" (by decide),
   (C10_normal_mode_cache_frame
      (((TurboAggregator.new false 10000).aggregate_prices false [pC3] 0).2)
      [pC3, pC3] 1000).2⟩

/-- Claim C3, counterexample: two identical observations for the same key
fed in one `aggregate_prices` call at the same timestamp do *not* always
yield exactly one output entry — after a first call caches the key at
timestamp 0, a call at timestamp 1000 (inside the 5000 ms dedup window)
drops both copies and emits nothing. -/
theorem C3_counterexample :
    ((((TurboAggregator.new false 10000).aggregate_prices false [pC3] 0).2).aggregate_prices
        false [pC3, pC3] 1000).1.length = 0 := by decide

/-- Claim C3 (amended): each observation is checked against the cache in
this order — an entry younger than `dedup_window_ms` drops the observation
(nothing emitted, cache unchanged); otherwise an entry younger than
`cache_timeout_ms` is emitted in place of the observation (cache unchanged);
otherwise (no entry, or older than both windows) the observation is cached
at `now_ms` and emitted.  Consequently, two identical observations for the
same key fed in one call at the same timestamp yield exactly one output
entry *provided* the cache the call starts from (after the lightweight
sweep, if any) has no entry for that key or only an entry at least
`dedup_window_ms` and `cache_timeout_ms` old. -/
theorem C3_dedup_window_order (timeout dedup now : Int)
    (acc : List PriceData × List (String × CachedPrice)) (p : PriceData)
    (c : CachedPrice) (s : TurboAggregator) (lw : Bool) (q : PriceData) :
    (alistLookup acc.2 (TurboAggregator.priceKey p) = some c →
      now - c.timestamp < dedup →
      TurboAggregator.processPrice timeout dedup now acc p = acc) ∧
    (alistLookup acc.2 (TurboAggregator.priceKey p) = some c →
      ¬ now - c.timestamp < dedup → now - c.timestamp < timeout →
      TurboAggregator.processPrice timeout dedup now acc p = (acc.1 ++ [c.data], acc.2)) ∧
    (alistLookup acc.2 (TurboAggregator.priceKey p) = some c →
      ¬ now - c.timestamp < dedup → ¬ now - c.timestamp < timeout →
      TurboAggregator.processPrice timeout dedup now acc p =
        (acc.1 ++ [p], alistInsert acc.2 (TurboAggregator.priceKey p) ⟨p, now⟩)) ∧
    (alistLookup acc.2 (TurboAggregator.priceKey p) = none →
      TurboAggregator.processPrice timeout dedup now acc p =
        (acc.1 ++ [p], alistInsert acc.2 (TurboAggregator.priceKey p) ⟨p, now⟩)) ∧
    ((alistLookup (if lw then TurboAggregator.evict_old_entries s.cache_timeout_ms
          s.price_cache now else s.price_cache) (TurboAggregator.priceKey q) = none ∨
      ∃ c0, alistLookup (if lw then TurboAggregator.evict_old_entries s.cache_timeout_ms
          s.price_cache now else s.price_cache) (TurboAggregator.priceKey q) = some c0 ∧
        s.dedup_window_ms ≤ now - c0.timestamp ∧
        s.cache_timeout_ms ≤ now - c0.timestamp) →
      0 < s.dedup_window_ms →
      (s.aggregate_prices lw [q, q] now).1 = [q]) :=
  ⟨fun hl h1 => TurboAggregator.processPrice_drop timeout dedup now acc p c hl h1,
   fun hl h1 h2 => TurboAggregator.processPrice_serve_cached timeout dedup now acc p c hl h1 h2,
   fun hl h1 h2 => TurboAggregator.processPrice_insert_stale timeout dedup now acc p c hl h1 h2,
   fun hl => TurboAggregator.processPrice_insert_none timeout dedup now acc p hl,
   fun H hd => TurboAggregator.aggregate_pair_suppression s.cache_timeout_ms
     s.dedup_window_ms now
     (if lw then TurboAggregator.evict_old_entries s.cache_timeout_ms s.price_cache now
      else s.price_cache) q H hd⟩

/-- Witness for `C3_dedup_window_order`: the drop branch at a concrete
cached entry of age 1000 (< 5000), and the single-output property of a
fresh aggregator fed the duplicate pair. -/
theorem C3_dedup_window_order_witness :
    TurboAggregator.processPrice 10000 5000 1000
      ([], [("A-B-dex1", ⟨pC3, 0⟩)]) pC3 = ([], [("A-B-dex1", ⟨pC3, 0⟩)]) ∧
    ((TurboAggregator.new false 10000).aggregate_prices false [pC3, pC3] 1000).1 = [pC3] :=
  ⟨(C3_dedup_window_order 10000 5000 1000 ([], [("A-B-dex1", ⟨pC3, 0⟩)]) pC3
      ⟨pC3, 0⟩ (TurboAggregator.new false 10000) false pC3).1
      (by decide) (by decide),
   (C3_dedup_window_order 10000 5000 1000 ([], [("A-B-dex1", ⟨pC3, 0⟩)]) pC3
      ⟨pC3, 0⟩ (TurboAggregator.new false 10000) false pC3).2.2.2.2
      (Or.inl (by decide)) (by decide)⟩

/-! ## Median calculation -/

theorem DecVal.le_iff (a b : DecVal) : a.le b = true ↔ a.toRat ≤ b.toRat := by
  unfold DecVal.le DecVal.toRat
  rw [decide_eq_true_eq, div_le_div_iff₀ (by positivity) (by positivity)]
  constructor <;> intro h <;> exact_mod_cast h

namespace TurboAggregator

theorem parsedPairs_length (prices : List PriceData)
    (h : ∀ p ∈ prices, (parsePrice p.price).isSome) :
    (parsedPairs prices).length = prices.length := by
  induction prices with
  | nil => rfl
  | cons p rest ih =>
    have hp := h p (List.mem_cons_self _ _)
    cases hps : parsePrice p.price with
    | none => rw [hps] at hp; cases hp
    | some v =>
      simp only [parsedPairs, List.filterMap_cons, hps, Option.map_some']
      simp only [parsedPairs] at ih
      rw [List.length_cons, ih (fun q hq => h q (List.mem_cons_of_mem _ hq))]
      rfl

theorem parsedPairs_eq_nil (prices : List PriceData)
    (h : ∀ q ∈ prices, parsePrice q.price = none) :
    parsedPairs prices = [] := by
  refine List.filterMap_eq_nil_iff.mpr ?_
  intro q hq
  rw [h q hq]
  rfl

theorem calculate_median_of_ge_two (prices : List PriceData)
    (h2 : 2 ≤ prices.length) (hne : (parsedPairs prices).length ≠ 0) :
    calculate_median_price prices =
      ((sortPairs (parsedPairs prices)).get?
        ((sortPairs (parsedPairs prices)).length / 2)).map Prod.snd := by
  unfold calculate_median_price
  rw [if_neg (by omega), if_neg (by omega)]
  show (if (parsedPairs prices).length = 0 then none
    else ((sortPairs (parsedPairs prices)).get?
      ((sortPairs (parsedPairs prices)).length / 2)).map Prod.snd) = _
  rw [if_neg hne]

theorem calculate_median_of_ge_two_none (prices : List PriceData)
    (h2 : 2 ≤ prices.length) (hz : (parsedPairs prices).length = 0) :
    calculate_median_price prices = none := by
  unfold calculate_median_price
  rw [if_neg (by omega), if_neg (by omega)]
  show (if (parsedPairs prices).length = 0 then none
    else ((sortPairs (parsedPairs prices)).get?
      ((sortPairs (parsedPairs prices)).length / 2)).map Prod.snd) = _
  rw [if_pos hz]

end TurboAggregator

/-! ## Claims about the median calculation -/

/-- Claim C1, counterexample: a one-element list whose single price string
does not parse is returned as-is by `calculate_median_price` (the size-one
early return precedes parsing), so the "no element parses implies none"
part of the claim fails on one-element inputs. -/
theorem C1_counterexample :
    parsePrice pAbc.price = none ∧
    TurboAggregator.calculate_median_price [pAbc] ≠ none := by decide

/-- Claim C1 (amended): `calculate_median_price` returns none on the empty
list; returns the single element of a one-element list (even when its price
does not parse — the size-one early return precedes parsing); and returns
none on any list of at least two elements none of whose prices parse. -/
theorem C1_median_degenerate_cases (prices : List PriceData) (p : PriceData) :
    TurboAggregator.calculate_median_price [] = none ∧
    TurboAggregator.calculate_median_price [p] = some p ∧
    (2 ≤ prices.length → (∀ q ∈ prices, parsePrice q.price = none) →
      TurboAggregator.calculate_median_price prices = none) := by
  refine ⟨rfl, rfl, ?_⟩
  intro h2 hnone
  exact TurboAggregator.calculate_median_of_ge_two_none prices h2
    (by rw [TurboAggregator.parsedPairs_eq_nil prices hnone]; rfl)

/-- Witness for `C1_median_degenerate_cases`: a two-element list of
unparseable prices yields none. -/
theorem C1_median_degenerate_cases_witness :
    TurboAggregator.calculate_median_price [pAbc, pXyz] = none :=
  (C1_median_degenerate_cases [pAbc, pXyz] pAbc).2.2 (by decide) (by decide)

/-- Claim C7: on a list of at least two observations whose prices all
parse, `calculate_median_price` returns the second component of the entry at
index `n / 2` (0-indexed) of a value-sorted permutation of the parsed
(value, observation) pairs, where `n` is the input length — the upper median;
and on the prices `"100"`, `"105"`, `"110"` it returns the `"105"` entry. -/
theorem C7_median_selection :
    (∀ prices : List PriceData,
      2 ≤ prices.length →
      (∀ p ∈ prices, (parsePrice p.price).isSome) →
      ∃ l : List (DecVal × PriceData),
        l.Perm (TurboAggregator.parsedPairs prices) ∧
        l.Pairwise (fun a b => a.1.toRat ≤ b.1.toRat) ∧
        l.length = prices.length ∧
        TurboAggregator.calculate_median_price prices =
          (l.get? (prices.length / 2)).map Prod.snd) ∧
    TurboAggregator.calculate_median_price [pd100, pd105, pd110] = some pd105 := by
  constructor
  · intro prices h2 hall
    haveI htot : IsTotal (DecVal × PriceData) TurboAggregator.priceLe :=
      ⟨by
        intro a b
        simp only [TurboAggregator.priceLe, DecVal.le_iff]
        exact le_total a.1.toRat b.1.toRat⟩
    haveI htr : IsTrans (DecVal × PriceData) TurboAggregator.priceLe :=
      ⟨by
        intro a b c hab hbc
        simp only [TurboAggregator.priceLe, DecVal.le_iff] at hab hbc ⊢
        exact le_trans hab hbc⟩
    have hperm : (TurboAggregator.sortPairs (TurboAggregator.parsedPairs prices)).Perm
        (TurboAggregator.parsedPairs prices) :=
      List.perm_insertionSort TurboAggregator.priceLe (TurboAggregator.parsedPairs prices)
    have hlen : (TurboAggregator.sortPairs (TurboAggregator.parsedPairs prices)).length =
        prices.length := by
      rw [hperm.length_eq, TurboAggregator.parsedPairs_length prices hall]
    refine ⟨TurboAggregator.sortPairs (TurboAggregator.parsedPairs prices),
      hperm, ?_, hlen, ?_⟩
    · have hs := List.sorted_insertionSort TurboAggregator.priceLe
        (TurboAggregator.parsedPairs prices)
      exact hs.imp (fun hab => (DecVal.le_iff _ _).mp hab)
    · rw [TurboAggregator.calculate_median_of_ge_two prices h2
        (by rw [TurboAggregator.parsedPairs_length prices hall]; omega), hlen]
  · decide

/-- Witness for `C7_median_selection`: the sorted permutation and the
`n / 2` selection at the three-element example list. -/
theorem C7_median_selection_witness :
    ∃ l : List (DecVal × PriceData),
      l.Perm (TurboAggregator.parsedPairs [pd100, pd105, pd110]) ∧
      l.Pairwise (fun a b => a.1.toRat ≤ b.1.toRat) ∧
      l.length = ([pd100, pd105, pd110] : List PriceData).length ∧
      TurboAggregator.calculate_median_price [pd100, pd105, pd110] =
        (l.get? (([pd100, pd105, pd110] : List PriceData).length / 2)).map Prod.snd :=
  C7_median_selection.1 [pd100, pd105, pd110] (by decide) (by decide)

end ShangoPoly
